import Mathlib

/-!
# Verification of the WESAD biometric preprocessing pipeline

Shallow embedding of the two notebooks of this repository:
`BiometricEmotionModels.ipynb` (signal loading, downsampling, windowing,
questionnaire parsing, dataset assembly, regression-target rescaling) and
`AudioDescriptions.ipynb` (the audio embedding/tagging batch).

Numeric arrays are modelled as `List ℚ` / `List (List ℚ)` (row-major), label
series as `List Nat` (the WESAD condition labels are small non-negative
integers), and the external FFT resampler (`scipy.signal.resample`) as an
abstract function parameter constrained only by its documented output-length
contract.
-/

set_option maxRecDepth 100000

namespace WESAD

/-- Constant `SAMPLING_RATE_ORIG = 700` from the notebook. -/
def SAMPLING_RATE_ORIG : Nat := 700

/-- Constant `SAMPLING_RATE_TARGET = 4` from the notebook. -/
def SAMPLING_RATE_TARGET : Nat := 4

/-- Constant `WINDOW_SIZE_SEC = 15` from the notebook. -/
def WINDOW_SIZE_SEC : Nat := 15

/-- Constant `STRIDE_SEC = 5` from the notebook. -/
def STRIDE_SEC : Nat := 5

/-- The `new_len = int(len(label) * scale)` computation, with `scale = SAMPLING_RATE_TARGET /
SAMPLING_RATE_ORIG` in `load_and_downsample`.  Python's `int(...)` truncates the
float product toward zero; for the fixed rates 4/700 this coincides with the
exact rational floor, hence natural-number floor division. -/
def new_len (L : Nat) : Nat := L * SAMPLING_RATE_TARGET / SAMPLING_RATE_ORIG

/-- The row count as the spec words it: `round(len(label) * target_rate /
source_rate)`.  Written from the spec text, to be compared against `new_len`
which is written from the code. -/
def specRoundLen (L : Nat) : Int :=
  round ((L * SAMPLING_RATE_TARGET : ℚ) / SAMPLING_RATE_ORIG)

/-- Python slice `l[i : i + W]`. -/
def slice (l : List α) (i W : Nat) : List α := (l.drop i).take W

/-- Python `range(0, stop, step)` for `step > 0`; a negative Python stop is
represented by the clamped value `0` (Nat subtraction does the clamping at the
call site). -/
def rangeStep (stop step : Nat) : List Nat :=
  (List.range ((stop + step - 1) / step)).map (· * step)

/-- Fold maximum of a list of naturals (`0` on the empty list). -/
def listMax (l : List Nat) : Nat := l.foldr max 0

/-- Model of `np.bincount` on a non-negative integer list: entry `v` is the number of
occurrences of `v`, for `v = 0 .. max`.  (The notebook only applies it to
nonempty window slices.) -/
def bincount (l : List Nat) : List Nat :=
  (List.range (listMax l + 1)).map (fun v => l.count v)

/-- Model of `np.argmax`: index of the first occurrence of the maximum. -/
def npArgmax (cs : List Nat) : Nat := cs.findIdx (fun c => c == listMax cs)

/-- The `np.bincount(win_y).argmax()` expression from `create_windows`: the majority label of
a window, ties resolved toward the smaller label value. -/
def bincountArgmax (l : List Nat) : Nat := npArgmax (bincount l)

/-- The `np.any(win_y == 0)` test: the window slice contains the sentinel label `0`. -/
def hasSentinel (win : List Nat) : Bool := win.contains 0

/-- The candidate window start indices of `create_windows`:
`range(0, len(X) - window_size, stride)`. -/
def windowStarts (N W S : Nat) : List Nat := rangeStep (N - W) S

/-- The start indices surviving the sentinel filter of `create_windows`. -/
def keptStarts (y : List Nat) (N W S : Nat) : List Nat :=
  (windowStarts N W S).filter (fun i => !hasSentinel (slice y i W))

/-- Function `create_windows(X, y, window_size, stride)` from the notebook: iterate
`i in range(0, len(X) - window_size, stride)`, slice `X[i:i+W]` and
`y[i:i+W]`, drop the window when the label slice contains the sentinel `0`,
else append the window and its majority label.  The append loop is rendered as
`filter` + `map` over the candidate starts.  Defaults in the notebook:
`window_size = WINDOW_SIZE_SEC * SAMPLING_RATE_TARGET`,
`stride = STRIDE_SEC * SAMPLING_RATE_TARGET`. -/
def create_windows (X : List (List ℚ)) (y : List Nat) (window_size stride : Nat) :
    List (List (List ℚ)) × List Nat :=
  let kept := keptStarts y X.length window_size stride
  (kept.map (fun i => slice X i window_size),
   kept.map (fun i => bincountArgmax (slice y i window_size)))

/-! ## Signal loader (`load_and_downsample`) -/

/-- A 2-D numeric array, row major. -/
abbrev Matrix := List (List ℚ)

/-- Model of `np.concatenate(ms, axis=1)`: column-wise concatenation.  For matrices
with equal row counts `zipWith` performs the exact numpy concatenation; numpy
raises on an empty input list, which the caller guards against. -/
def hconcat : List Matrix → Matrix
  | [] => []
  | [m] => m
  | m :: ms => List.zipWith (· ++ ·) m (hconcat ms)

/-- The `device` argument of `load_and_downsample`. -/
inductive Device where
  | chest
  | wrist
  | both
deriving DecidableEq, Repr

/-- The canonical channel names, the keys of `SIGNAL_MAP`. -/
inductive Channel where
  | EDA
  | TEMP
  | RESP
  | ECG
  | ACC
  | EMG
  | BVP
deriving DecidableEq, Repr

/-- Lookup `SIGNAL_MAP[c]['chest']`. -/
def chestKey : Channel → Option String
  | .EDA => some "EDA"
  | .TEMP => some "Temp"
  | .RESP => some "Resp"
  | .ECG => some "ECG"
  | .ACC => some "ACC"
  | .EMG => some "EMG"
  | .BVP => none

/-- Lookup `SIGNAL_MAP[c]['wrist']`. -/
def wristKey : Channel → Option String
  | .EDA => some "EDA"
  | .TEMP => some "TEMP"
  | .RESP => none
  | .ECG => none
  | .ACC => some "ACC"
  | .EMG => none
  | .BVP => some "BVP"

/-- The `device in [part, 'both']` test. -/
def useDevice (device part : Device) : Bool :=
  device == part || device == Device.both

/-- Per-subject raw record: the original label series and the nested
`data['signal'][part][key]` arrays.  A 1-D source array enters as a
single-column matrix, per the `source[:, np.newaxis]` reshape. -/
structure RawData where
  label : List Int
  chestSig : String → Matrix
  wristSig : String → Matrix

/-- One iteration of the `for part in ['chest', 'wrist']` loop of
`load_and_downsample`: when the device matches and `SIGNAL_MAP` has a key for
this part, resample that source to `n` rows, else contribute nothing. -/
def partFor (resample : Matrix → Nat → Matrix) (use : Bool) (key : Option String)
    (sig : String → Matrix) (n : Nat) : List Matrix :=
  match use, key with
  | true, some k => [resample (sig k) n]
  | _, _ => []

/-- The `parts` list built for one requested channel. -/
def channelParts (resample : Matrix → Nat → Matrix) (data : RawData) (device : Device)
    (n : Nat) (c : Channel) : List Matrix :=
  partFor resample (useDevice device .chest) (chestKey c) data.chestSig n ++
  partFor resample (useDevice device .wrist) (wristKey c) data.wristSig n

/-- Model of `np.round`: round half to even. -/
def npRound (q : ℚ) : Int :=
  if q - ⌊q⌋ = 1 / 2 then (if Even ⌊q⌋ then ⌊q⌋ else ⌊q⌋ + 1) else round q

/-- The `signal_list` accumulated by `load_and_downsample`: one column-wise
concatenation per requested channel, skipping channels whose `parts` list is
empty (`if parts:`). -/
def signalList (resample : Matrix → Nat → Matrix) (data : RawData)
    (signals : List Channel) (device : Device) (n : Nat) : List Matrix :=
  signals.filterMap (fun c =>
    let parts := channelParts resample data device n c
    if parts.isEmpty then none else some (hconcat parts))

/-- Function `load_and_downsample(subject_path, signals, device)` with the external
band-limited resampler (`scipy.signal.resample`) abstracted: `resample m n`
resamples a signal matrix to `n` rows along axis 0, `resampleL l n` resamples
the float-cast label series.  The result is `none` exactly when no requested
channel resolves to any source, modelling the `ValueError` that
`np.concatenate` raises on an empty list; the label series is resampled to the
same `new_len` row count and rounded to integers. -/
def load_and_downsample (resample : Matrix → Nat → Matrix)
    (resampleL : List ℚ → Nat → List ℚ) (data : RawData)
    (signals : List Channel) (device : Device) : Option (Matrix × List Int) :=
  let n := new_len data.label.length
  let signal_list := signalList resample data signals device n
  if signal_list.isEmpty then none
  else some (hconcat signal_list,
    (resampleL (data.label.map fun z => (z : ℚ)) n).map npRound)

/-! ## Questionnaire extractor (`extract_panas_scores`) -/

/-- The 26-item PANAS adjective vocabulary from the notebook. -/
def PANAS_ITEMS : List String :=
  ["Active", "Distressed", "Interested", "Inspired", "Annoyed", "Strong", "Guilty",
   "Scared", "Hostile", "Excited", "Proud", "Irritable", "Enthusiastic", "Ashamed",
   "Alert", "Nervous", "Determined", "Attentive", "Jittery", "Afraid", "Stressed",
   "Frustrated", "Happy", "Angry", "Irritated", "Sad"]

/-- The target adjective subset from the notebook. -/
def TARGET_PANAS : List String :=
  ["Stressed", "Angry", "Happy", "Sad", "Inspired", "Excited", "Nervous"]

/-- Python `str.strip()`: drop whitespace from both ends. -/
def pyStrip (s : List Char) : List Char :=
  ((s.dropWhile Char.isWhitespace).reverse.dropWhile Char.isWhitespace).reverse

/-- Python `s.startswith(pre)` on character lists. -/
def listStartsWith : List Char → List Char → Bool
  | _, [] => true
  | [], _ :: _ => false
  | c :: s, p :: ps => c == p && listStartsWith s ps

/-- Python `val.strip().isdigit()`: after stripping surrounding whitespace the
field is nonempty and consists of decimal digits.  (Python's `isdigit` also
accepts some non-ASCII digit characters; questionnaire files are ASCII and
those are outside this model.) -/
def isDigitField (s : String) : Bool :=
  !(pyStrip s.toList).isEmpty && (pyStrip s.toList).all Char.isDigit

/-- Python `int(val)` on an all-digit field (`int` tolerates surrounding whitespace). -/
def digitVal (s : String) : Nat :=
  (pyStrip s.toList).foldl (fun n c => 10 * n + (c.toNat - 48)) 0

/-- The comprehension `[int(val) for val in fields if val.strip().isdigit()]`: non-digit fields
are dropped and do not occupy a position. -/
def parsedScores (fields : List String) : List Nat :=
  fields.filterMap (fun v => if isDigitField v then some (digitVal v) else none)

/-- The `r and r[0].startswith('# PANAS')` test: the row is nonempty and its first
field starts with the fixed marker. -/
def markerRow (row : List String) : Bool :=
  match row with
  | [] => false
  | f :: _ => listStartsWith f.toList "# PANAS".toList

/-- Function `extract_panas_scores(quest_path)` over the `;`-split rows of the
questionnaire file (the `csv.reader` split is external I/O and enters as the
`rows` argument).  Keep marker rows; parse the numeric fields after the first;
skip the row when fewer than 26 parse; else zip the vocabulary with the scores
(`zip` truncates to the first 26, ignoring extras).  With digit fields
modelled as ASCII, `int(...)` cannot fail, so the `try/except` print-and-skip
branch contributes nothing; the function is total either way. -/
def extract_panas_scores (rows : List (List String)) : List (List (String × Nat)) :=
  (rows.filter markerRow).filterMap (fun row =>
    let scores := parsedScores (row.drop 1)
    if scores.length < PANAS_ITEMS.length then none
    else some (PANAS_ITEMS.zip scores))

/-! ## Dataset assembler (`load_wesad_dataset`) and regression rescaling -/

/-- Lookup `d[key]` on a dict built by `dict(zip(keys, scores))` with distinct keys:
the first matching entry.  Python raises `KeyError` on an absent key; the
pipeline only looks up `TARGET_PANAS` keys, which every parsed dict contains,
so the `0` default is never exercised there. -/
def dictLookup (d : List (String × Nat)) (k : String) : Nat :=
  ((d.find? (fun p => p.1 == k)).map Prod.snd).getD 0

/-- The comprehension `[panas_per_condition[condition_idx][key] for key in TARGET_PANAS]`. -/
def scoreRestrict (d : List (String × Nat)) : List ℚ :=
  TARGET_PANAS.map (fun k => (dictLookup d k : ℚ))

/-- The per-window regression-target assignment of `load_wesad_dataset`:
`condition_idx = label - 1`; out-of-range indices get the all-zero fallback of
length `len(TARGET_PANAS)`.  Labels emitted by `create_windows` are ≥ 1, so
`label - 1` is plain truncated subtraction. -/
def scoreVec (panas : List (List (String × Nat))) (label : Nat) : List ℚ :=
  if panas.length ≤ label - 1 then List.replicate TARGET_PANAS.length 0
  else scoreRestrict (panas.getD (label - 1) [])

/-- The `for label in win_y` loop building `y_reg` for one subject. -/
def y_reg_for (panas : List (List (String × Nat))) (win_y : List Nat) : List (List ℚ) :=
  win_y.map (scoreVec panas)

/-- One coordinate of `y_reg = (y_reg - 1) / 4.0`. -/
def rescaleScore (q : ℚ) : ℚ := (q - 1) / 4

/-- The elementwise rescaling applied to the assembled regression targets. -/
def rescaleAll (rows : List (List ℚ)) : List (List ℚ) :=
  rows.map (fun r => r.map rescaleScore)

/-! ## Audio pipeline (`AudioDescriptions.ipynb`) -/

/-- Constant `EMBED_SIZE = 512` from the audio notebook. -/
def EMBED_SIZE : Nat := 512

/-- One entry of the audio result list: the success record
`{file, embedding, tags}` or the error record `{file, error}`. -/
inductive AudioResult where
  | ok (file : String) (embedding : List ℚ) (tags : List (String × ℚ))
  | err (file : String) (msg : String)
deriving DecidableEq, Repr

/-- Python `os.path.basename`: the part after the last path separator. -/
def basename (p : String) : String :=
  ⟨(p.toList.reverse.takeWhile (fun c => c != '/')).reverse⟩

/-- Function `assign_gpu(index)`: round-robin over the two GPUs by list position. -/
def assign_gpu (i : Nat) : Nat := if i % 2 = 0 then 0 else 1

/-- The pairing `[(f, assign_gpu(i)) for i, f in enumerate(audio_files)]`. -/
def file_gpu_pairs (files : List String) : List (String × Nat) :=
  files.enum.map (fun p => (p.2, assign_gpu p.1))

/-- Function `process_audio(args)` with the external model calls abstracted:
`analyze path` stands for the body of the `try` block (librosa load, middle
30 s snippet, OpenL3 embedding mean, musicnn tags) and may fail with a
message; the `except` branch returns an error record.  Both records carry
`fname = os.path.basename(path)`. -/
def process_audio (analyze : String → Except String (List ℚ × List (String × ℚ)))
    (arg : String × Nat) : AudioResult :=
  match analyze arg.1 with
  | .ok (e, t) => .ok (basename arg.1) e t
  | .error m => .err (basename arg.1) m

/-- The `pool.map(process_audio, file_gpu_pairs)` call: `Pool.map` returns one result
per input in input order, which is exactly `List.map`. -/
def runAudioPipeline (analyze : String → Except String (List ℚ × List (String × ℚ)))
    (files : List String) : List AudioResult :=
  (file_gpu_pairs files).map (process_audio analyze)

/-! ## Concrete instantiations used to exercise the abstracted externals -/

/-- A trivial resampler satisfying the output-length contract of
`scipy.signal.resample` along axis 0. -/
def constResample : Matrix → Nat → Matrix := fun _ n => List.replicate n [0]

/-- A trivial label-series resampler satisfying the length contract. -/
def constResampleL : List ℚ → Nat → List ℚ := fun _ n => List.replicate n 0

/-- A synthetic subject record with a label series of length 700. -/
def demoData700 : RawData :=
  ⟨List.replicate 700 1, fun _ => [[1]], fun _ => [[1]]⟩

/-- A synthetic subject record with a label series of length 1000. -/
def demoData1000 : RawData :=
  ⟨List.replicate 1000 1, fun _ => [[1]], fun _ => [[1]]⟩

/-! ## Basic lemmas about the windowing model -/

theorem length_rangeStep (stop step : Nat) :
    (rangeStep stop step).length = (stop + step - 1) / step := by
  simp [rangeStep]

theorem mem_rangeStep {stop step i : Nat} (hS : 0 < step) :
    i ∈ rangeStep stop step ↔ step ∣ i ∧ i < stop := by
  unfold rangeStep
  simp only [List.mem_map, List.mem_range]
  constructor
  · rintro ⟨j, hj, rfl⟩
    refine ⟨⟨j, by ring⟩, ?_⟩
    have h1 : j + 1 ≤ (stop + step - 1) / step := hj
    rw [Nat.le_div_iff_mul_le hS] at h1
    have h2 : (j + 1) * step = j * step + step := by ring
    omega
  · rintro ⟨⟨j, rfl⟩, hlt⟩
    refine ⟨j, ?_, by ring⟩
    have h1 : j + 1 ≤ (stop + step - 1) / step := by
      rw [Nat.le_div_iff_mul_le hS]
      have h2 : (j + 1) * step = step * j + step := by ring
      omega
    omega

theorem le_listMax {l : List Nat} {x : Nat} (hx : x ∈ l) : x ≤ listMax l := by
  induction l with
  | nil => cases hx
  | cons a t ih =>
    rcases List.mem_cons.mp hx with rfl | hm
    · exact Nat.le_max_left _ _
    · exact Nat.le_trans (ih hm) (Nat.le_max_right _ _)

theorem listMax_cons (a : Nat) (t : List Nat) : listMax (a :: t) = max a (listMax t) := rfl

theorem listMax_mem {l : List Nat} (h : l ≠ []) : listMax l ∈ l := by
  induction l with
  | nil => exact absurd rfl h
  | cons a t ih =>
    rw [listMax_cons]
    rcases max_choice a (listMax t) with hmax | hmax <;> rw [hmax]
    · exact List.mem_cons_self _ _
    · rcases eq_or_ne t [] with rfl | ht
      · have ha : a = 0 := by simpa [listMax] using hmax
        subst ha
        simp [listMax]
      · exact List.mem_cons_of_mem _ (ih ht)

theorem bincount_length (l : List Nat) : (bincount l).length = listMax l + 1 := by
  simp [bincount]

theorem bincount_getElem (l : List Nat) (v : Nat) (hv : v < (bincount l).length) :
    (bincount l)[v] = l.count v := by
  simp [bincount]

theorem count_eq_zero_of_listMax_lt {l : List Nat} {v : Nat} (h : listMax l < v) :
    l.count v = 0 := by
  rw [List.count_eq_zero]
  intro hmem
  exact absurd (le_listMax hmem) (Nat.not_le_of_lt h)

theorem bincount_ne_nil (l : List Nat) : bincount l ≠ [] := by
  have h := bincount_length l
  intro hnil
  rw [hnil] at h
  simp at h

theorem bincountArgmax_lt_length (l : List Nat) :
    bincountArgmax l < (bincount l).length := by
  apply List.findIdx_lt_length_of_exists
  refine ⟨listMax (bincount l), listMax_mem (bincount_ne_nil l), ?_⟩
  simp

/-- The count of the returned label is the maximal bin value. -/
theorem count_bincountArgmax (l : List Nat) :
    l.count (bincountArgmax l) = listMax (bincount l) := by
  have hlt := bincountArgmax_lt_length l
  have hp : ((bincount l).get ⟨bincountArgmax l, hlt⟩ == listMax (bincount l)) = true :=
    @List.findIdx_getElem _ (fun c => c == listMax (bincount l)) (bincount l) hlt
  have hval : (bincount l)[bincountArgmax l] = listMax (bincount l) := by
    simpa using hp
  rw [← hval, bincount_getElem]

/-- Any value's count is at most the count of the returned label. -/
theorem count_le_count_bincountArgmax (l : List Nat) (v : Nat) :
    l.count v ≤ l.count (bincountArgmax l) := by
  rw [count_bincountArgmax]
  by_cases hv : v < (bincount l).length
  · have : (bincount l)[v] = l.count v := bincount_getElem l v hv
    rw [← this]
    exact le_listMax (List.getElem_mem hv)
  · have hgt : listMax l < v := by
      have := bincount_length l
      omega
    rw [count_eq_zero_of_listMax_lt hgt]
    exact Nat.zero_le _

/-- Ties go to the smaller label value: any value whose count equals the
returned label's count is at least the returned label. -/
theorem bincountArgmax_le_of_count_eq (l : List Nat) (v : Nat)
    (hc : l.count v = l.count (bincountArgmax l)) : bincountArgmax l ≤ v := by
  by_contra hlt
  push_neg at hlt
  have hvlen : v < (bincount l).length :=
    Nat.lt_trans hlt (bincountArgmax_lt_length l)
  have hfalse : ((bincount l).get ⟨v, hvlen⟩ == listMax (bincount l)) = false :=
    List.not_of_lt_findIdx hlt
  have hcv : (bincount l)[v] = l.count v := bincount_getElem l v hvlen
  rw [count_bincountArgmax] at hc
  simp only [List.get_eq_getElem, hcv, hc] at hfalse
  simp at hfalse

/-- A nonempty window without the sentinel gets a nonzero label. -/
theorem bincountArgmax_ne_zero {l : List Nat} (hne : l ≠ []) (h0 : 0 ∉ l) :
    bincountArgmax l ≠ 0 := by
  intro hzero
  have hcount0 : l.count 0 = 0 := List.count_eq_zero.mpr h0
  obtain ⟨a, ha⟩ := List.exists_mem_of_ne_nil l hne
  have hpos : 0 < l.count a := List.count_pos_iff.mpr ha
  have hle := count_le_count_bincountArgmax l a
  rw [hzero, hcount0] at hle
  omega

theorem lt_stop_of_mem_rangeStep {stop step i : Nat} (h : i ∈ rangeStep stop step) :
    i < stop := by
  rcases Nat.eq_zero_or_pos step with rfl | hS
  · simp [rangeStep, Nat.div_zero] at h
  · exact ((mem_rangeStep hS).mp h).2

theorem slice_length {l : List α} {i W : Nat} (hi : i + W < l.length) :
    (slice l i W).length = W := by
  simp only [slice, List.length_take, List.length_drop]
  omega

theorem hasSentinel_false_iff (win : List Nat) :
    hasSentinel win = false ↔ 0 ∉ win := by
  simp [hasSentinel]

theorem mem_keptStarts {y : List Nat} {N W S i : Nat} :
    i ∈ keptStarts y N W S ↔ i ∈ windowStarts N W S ∧ 0 ∉ slice y i W := by
  simp [keptStarts, List.mem_filter, hasSentinel]

theorem getD_map_getElem (f : α → β) :
    ∀ (l : List α) (k : Nat) (h : k < l.length) (d : β),
      (l.map f).getD k d = f (l.get ⟨k, h⟩)
  | a :: t, 0, _, d => rfl
  | a :: t, k + 1, h, d => by
    have ht : k < t.length := by simpa using h
    simpa using getD_map_getElem f t k ht d

/-! ## Claim theorems: windowing -/

/-- C2 counterexample: at `X = [[0], [0]]`, `y = [1, 1]`, `W = 2`, `S = 1`,
the start `i = 0` satisfies the claimed entry condition `i + W ≤ total_rows`
and its label slice carries no sentinel, yet `create_windows` emits zero
windows while the claimed count `⌊(N − W) / S⌋ + 1` is `1`. -/
theorem create_windows_boundary_counterexample :
    (create_windows [[(0 : ℚ)], [0]] [1, 1] 2 1).1.length = 0 ∧
    (create_windows [[(0 : ℚ)], [0]] [1, 1] 2 1).2.length = 0 ∧
    hasSentinel (slice [1, 1] 0 2) = false ∧
    0 + 2 ≤ ([[(0 : ℚ)], [0]] : Matrix).length ∧
    (([[(0 : ℚ)], [0]] : Matrix).length - 2) / 1 + 1 = 1 := by
  refine ⟨by decide, by decide, by decide, by decide, by decide⟩

/-- C2 (amended): `create_windows` emits a candidate window starting at `i`
exactly while `S ∣ i` and `i + W < total_rows` — Python's
`range(0, len(X) - window_size, stride)` excludes a window ending exactly at
the boundary — so with no sentinel-triggered drops the number of emitted
windows equals `⌈(N − W) / S⌉ = (N − W + S − 1) / S` (zero when `N ≤ W`),
not `⌊(N − W) / S⌋ + 1`. -/
theorem create_windows_count (X : Matrix) (y : List Nat) (W S : Nat) (hS : 0 < S)
    (hnodrop : ∀ i ∈ windowStarts X.length W S, hasSentinel (slice y i W) = false) :
    (∀ i, i ∈ windowStarts X.length W S ↔ S ∣ i ∧ i + W < X.length) ∧
    (create_windows X y W S).1.length = (X.length - W + S - 1) / S ∧
    (create_windows X y W S).2.length = (X.length - W + S - 1) / S := by
  have hmem : ∀ i, i ∈ windowStarts X.length W S ↔ S ∣ i ∧ i + W < X.length := by
    intro i
    rw [windowStarts, mem_rangeStep hS]
    exact and_congr_right fun _ => by omega
  have hkeep : keptStarts y X.length W S = windowStarts X.length W S := by
    apply List.filter_eq_self.mpr
    intro i hi
    simp [hnodrop i hi]
  refine ⟨hmem, ?_, ?_⟩ <;>
    simp [create_windows, hkeep, windowStarts, length_rangeStep]

/-- Witness: `N = 3`, `W = 2`, `S = 1`, no sentinel anywhere; exactly one
window (the one starting at `0`) is emitted. -/
theorem create_windows_count_witness :
    (∀ i, i ∈ windowStarts ([[(0 : ℚ)], [0], [0]] : Matrix).length 2 1 ↔
        1 ∣ i ∧ i + 2 < ([[(0 : ℚ)], [0], [0]] : Matrix).length) ∧
    (create_windows [[(0 : ℚ)], [0], [0]] [1, 1, 1] 2 1).1.length =
      (([[(0 : ℚ)], [0], [0]] : Matrix).length - 2 + 1 - 1) / 1 ∧
    (create_windows [[(0 : ℚ)], [0], [0]] [1, 1, 1] 2 1).2.length =
      (([[(0 : ℚ)], [0], [0]] : Matrix).length - 2 + 1 - 1) / 1 :=
  create_windows_count [[(0 : ℚ)], [0], [0]] [1, 1, 1] 2 1 Nat.one_pos (by decide)

/-- C4: a candidate window survives iff none of its per-sample labels is the
sentinel `0`: every kept start has a sentinel-free label slice and a nonzero
assigned label, every dropped candidate has at least one sentinel sample, and
every emitted label is nonzero. -/
theorem create_windows_sentinel_filter (X : Matrix) (y : List Nat) (W S : Nat)
    (hW : 0 < W) (hlen : y.length = X.length) :
    (∀ i ∈ keptStarts y X.length W S,
        0 ∉ slice y i W ∧ bincountArgmax (slice y i W) ≠ 0) ∧
    (∀ i ∈ windowStarts X.length W S,
        i ∉ keptStarts y X.length W S → 0 ∈ slice y i W) ∧
    (∀ ℓ ∈ (create_windows X y W S).2, ℓ ≠ 0) := by
  have hslice : ∀ i ∈ windowStarts X.length W S, (slice y i W).length = W := by
    intro i hi
    have hstop : i < X.length - W := lt_stop_of_mem_rangeStep hi
    exact slice_length (by omega)
  have hpart1 : ∀ i ∈ keptStarts y X.length W S,
      0 ∉ slice y i W ∧ bincountArgmax (slice y i W) ≠ 0 := by
    intro i hi
    obtain ⟨hstart, h0⟩ := mem_keptStarts.mp hi
    refine ⟨h0, bincountArgmax_ne_zero ?_ h0⟩
    have := hslice i hstart
    intro hnil
    rw [hnil] at this
    simp at this
    omega
  refine ⟨hpart1, ?_, ?_⟩
  · intro i hi hnk
    by_contra h0
    exact hnk (mem_keptStarts.mpr ⟨hi, h0⟩)
  · intro ℓ hℓ
    simp only [create_windows, List.mem_map] at hℓ
    obtain ⟨i, hi, rfl⟩ := hℓ
    exact (hpart1 i hi).2

/-- Witness: at `y = [1, 1, 2]`, `W = 2`, `S = 1`, the only window is kept
with a sentinel-free slice, and a dropped window is impossible. -/
theorem create_windows_sentinel_filter_witness :
    (∀ i ∈ keptStarts [1, 1, 2] ([[(0 : ℚ)], [0], [0]] : Matrix).length 2 1,
        0 ∉ slice [1, 1, 2] i 2 ∧ bincountArgmax (slice [1, 1, 2] i 2) ≠ 0) ∧
    (∀ i ∈ windowStarts ([[(0 : ℚ)], [0], [0]] : Matrix).length 2 1,
        i ∉ keptStarts [1, 1, 2] ([[(0 : ℚ)], [0], [0]] : Matrix).length 2 1 →
        0 ∈ slice [1, 1, 2] i 2) ∧
    (∀ ℓ ∈ (create_windows [[(0 : ℚ)], [0], [0]] [1, 1, 2] 2 1).2, ℓ ≠ 0) :=
  create_windows_sentinel_filter [[(0 : ℚ)], [0], [0]] [1, 1, 2] 2 1
    (by decide) (by decide)

/-- C5: every emitted window's label is the mode of its `W` per-sample labels,
ties resolved toward the smaller label value: the `k`-th emitted label is
`np.bincount(win_y).argmax()` of the `k`-th kept label slice, no label value
occurs more often in that slice, and any equally frequent value is at least
the assigned label. -/
theorem create_windows_majority (X : Matrix) (y : List Nat) (W S : Nat)
    (hlen : y.length = X.length) (k : Nat)
    (hk : k < (create_windows X y W S).2.length) :
    ∃ i ∈ keptStarts y X.length W S,
      (slice y i W).length = W ∧
      (create_windows X y W S).2.getD k 0 = bincountArgmax (slice y i W) ∧
      (create_windows X y W S).1.getD k [] = slice X i W ∧
      (∀ v, (slice y i W).count v ≤
        (slice y i W).count ((create_windows X y W S).2.getD k 0)) ∧
      (∀ v, (slice y i W).count v =
          (slice y i W).count ((create_windows X y W S).2.getD k 0) →
        (create_windows X y W S).2.getD k 0 ≤ v) := by
  have hk' : k < (keptStarts y X.length W S).length := by
    simpa [create_windows] using hk
  set i := (keptStarts y X.length W S)[k] with hidef
  have himem : i ∈ keptStarts y X.length W S := List.getElem_mem hk'
  have hstart : i ∈ windowStarts X.length W S := (mem_keptStarts.mp himem).1
  have hstop : i < X.length - W := lt_stop_of_mem_rangeStep hstart
  have hlab : (create_windows X y W S).2.getD k 0 = bincountArgmax (slice y i W) :=
    getD_map_getElem _ _ k hk' 0
  have hwin : (create_windows X y W S).1.getD k [] = slice X i W :=
    getD_map_getElem _ _ k hk' []
  refine ⟨i, himem, slice_length (by omega), hlab, hwin, ?_, ?_⟩
  · intro v
    rw [hlab]
    exact count_le_count_bincountArgmax _ v
  · intro v hv
    rw [hlab] at hv ⊢
    exact bincountArgmax_le_of_count_eq _ v hv

/-- Witness: at `y = [1, 2, 2]`, `W = 2`, `S = 1`, the single emitted window
has label slice `[1, 2]`; both values occur once and the smaller, `1`, is
assigned. -/
theorem create_windows_majority_witness :
    ∃ i ∈ keptStarts [1, 2, 2] ([[(0 : ℚ)], [0], [0]] : Matrix).length 2 1,
      (slice [1, 2, 2] i 2).length = 2 ∧
      (create_windows [[(0 : ℚ)], [0], [0]] [1, 2, 2] 2 1).2.getD 0 0 =
        bincountArgmax (slice [1, 2, 2] i 2) ∧
      (create_windows [[(0 : ℚ)], [0], [0]] [1, 2, 2] 2 1).1.getD 0 [] =
        slice [[(0 : ℚ)], [0], [0]] i 2 ∧
      (∀ v, (slice [1, 2, 2] i 2).count v ≤
        (slice [1, 2, 2] i 2).count
          ((create_windows [[(0 : ℚ)], [0], [0]] [1, 2, 2] 2 1).2.getD 0 0)) ∧
      (∀ v, (slice [1, 2, 2] i 2).count v =
          (slice [1, 2, 2] i 2).count
            ((create_windows [[(0 : ℚ)], [0], [0]] [1, 2, 2] 2 1).2.getD 0 0) →
        (create_windows [[(0 : ℚ)], [0], [0]] [1, 2, 2] 2 1).2.getD 0 0 ≤ v) :=
  create_windows_majority [[(0 : ℚ)], [0], [0]] [1, 2, 2] 2 1 (by decide) 0 (by decide)

/-! ## Lemmas about the loader -/

theorem hconcat_length {ms : List Matrix} {n : Nat} (hne : ms ≠ [])
    (h : ∀ m ∈ ms, m.length = n) : (hconcat ms).length = n := by
  induction ms with
  | nil => exact absurd rfl hne
  | cons m t ih =>
    cases t with
    | nil => simpa using h m (by simp)
    | cons m2 t2 =>
      show (List.zipWith (· ++ ·) m (hconcat (m2 :: t2))).length = n
      rw [List.length_zipWith]
      have h1 : m.length = n := h m (by simp)
      have h2 : (hconcat (m2 :: t2)).length = n := by
        refine ih (by simp) ?_
        intro x hx
        exact h x (List.mem_cons_of_mem _ hx)
      omega

theorem partFor_false (resample : Matrix → Nat → Matrix) (key : Option String)
    (sig : String → Matrix) (n : Nat) : partFor resample false key sig n = [] := by
  cases key <;> rfl

theorem partFor_none (resample : Matrix → Nat → Matrix) (use : Bool)
    (sig : String → Matrix) (n : Nat) : partFor resample use none sig n = [] := by
  cases use <;> rfl

theorem mem_partFor {resample : Matrix → Nat → Matrix} {use : Bool} {key : Option String}
    {sig : String → Matrix} {n : Nat} {m : Matrix}
    (hm : m ∈ partFor resample use key sig n) : ∃ k, m = resample (sig k) n := by
  cases use with
  | false => rw [partFor_false] at hm; cases hm
  | true =>
    cases key with
    | none => rw [partFor_none] at hm; cases hm
    | some k =>
      refine ⟨k, ?_⟩
      simpa [partFor] using hm

theorem length_of_mem_channelParts {resample : Matrix → Nat → Matrix} {data : RawData}
    {device : Device} {n : Nat} {c : Channel} {m : Matrix}
    (hres : ∀ m k, (resample m k).length = k)
    (hm : m ∈ channelParts resample data device n c) : m.length = n := by
  rcases List.mem_append.mp hm with h | h <;>
    · obtain ⟨k, rfl⟩ := mem_partFor h
      exact hres _ n

theorem mem_signalList {resample : Matrix → Nat → Matrix} {data : RawData}
    {signals : List Channel} {device : Device} {n : Nat} {x : Matrix}
    (hx : x ∈ signalList resample data signals device n) :
    ∃ c ∈ signals, channelParts resample data device n c ≠ [] ∧
      x = hconcat (channelParts resample data device n c) := by
  simp only [signalList, List.mem_filterMap] at hx
  obtain ⟨c, hc, hsome⟩ := hx
  by_cases hp : (channelParts resample data device n c).isEmpty
  · simp [hp] at hsome
  · refine ⟨c, hc, by simpa using hp, ?_⟩
    simp only [hp, if_false] at hsome
    exact (Option.some.inj hsome).symm

theorem signalList_eq_nil_iff {resample : Matrix → Nat → Matrix} {data : RawData}
    {signals : List Channel} {device : Device} {n : Nat} :
    signalList resample data signals device n = [] ↔
      ∀ c ∈ signals, channelParts resample data device n c = [] := by
  rw [signalList, List.filterMap_eq_nil_iff]
  constructor
  · intro h c hc
    have := h c hc
    by_cases hp : (channelParts resample data device n c).isEmpty
    · simpa using hp
    · simp [hp] at this
  · intro h c hc
    simp [h c hc]

/-! ## Claim theorems: loader -/

/-- C1 counterexample: for a label series of length 1000 the code's row count
is `int(1000 · 4 / 700) = 5` (truncation), while the claimed
`round(1000 · 4 / 700)` is `6`. -/
theorem load_rowcount_counterexample :
    (∃ M labs,
      load_and_downsample constResample constResampleL demoData1000
          [Channel.EDA] Device.chest = some (M, labs) ∧
      M.length = 5 ∧ labs.length = 5) ∧
    specRoundLen demoData1000.label.length = 6 ∧
    (5 : Int) ≠ 6 := by
  refine ⟨⟨List.replicate 5 [0],
    (constResampleL (demoData1000.label.map fun z => (z : ℚ))
      (new_len demoData1000.label.length)).map npRound,
    rfl, by simp, ?_⟩, ?_, by decide⟩
  · simp [constResampleL, new_len, demoData1000,
      SAMPLING_RATE_TARGET, SAMPLING_RATE_ORIG]
  · show specRoundLen 1000 = 6
    rw [specRoundLen, round_eq, Int.floor_eq_iff]
    constructor <;> norm_num [SAMPLING_RATE_TARGET, SAMPLING_RATE_ORIG]

/-- C1 (amended): with the resampler's output-length contract, a successful
`load_and_downsample` returns a signal matrix and a resampled label series
whose common row count is `int(L · target_rate / source_rate)` — floor, i.e.
truncation, not rounding — for a label series of length `L`, and every
selected channel's resampled part has that same row count. -/
theorem load_and_downsample_rowcount (resample : Matrix → Nat → Matrix)
    (resampleL : List ℚ → Nat → List ℚ) (data : RawData) (signals : List Channel)
    (device : Device) (M : Matrix) (labs : List Int)
    (hres : ∀ m n, (resample m n).length = n)
    (hresL : ∀ l n, (resampleL l n).length = n)
    (hsome : load_and_downsample resample resampleL data signals device =
      some (M, labs)) :
    M.length = new_len data.label.length ∧
    labs.length = new_len data.label.length ∧
    new_len data.label.length =
      data.label.length * SAMPLING_RATE_TARGET / SAMPLING_RATE_ORIG ∧
    ∀ c ∈ signals,
      ∀ m ∈ channelParts resample data device (new_len data.label.length) c,
        m.length = new_len data.label.length := by
  simp only [load_and_downsample] at hsome
  by_cases hemp : (signalList resample data signals device
      (new_len data.label.length)).isEmpty
  · rw [if_pos hemp] at hsome; cases hsome
  · rw [if_neg hemp] at hsome
    rw [Option.some.injEq, Prod.mk.injEq] at hsome
    obtain ⟨hM, hlabs⟩ := hsome
    have hne : signalList resample data signals device
        (new_len data.label.length) ≠ [] := by
      simpa [List.isEmpty_iff] using hemp
    refine ⟨?_, ?_, rfl, ?_⟩
    · rw [← hM]
      apply hconcat_length hne
      intro x hx
      obtain ⟨c, hc, hpne, rfl⟩ := mem_signalList hx
      exact hconcat_length hpne fun m hm => length_of_mem_channelParts hres hm
    · rw [← hlabs]
      simp [hresL]
    · intro c hc m hm
      exact length_of_mem_channelParts hres hm

/-- Witness: the synthetic 700-sample recording loads to 4 rows
(`int(700 · 4 / 700) = 4`), with matching label length and channel parts. -/
theorem load_and_downsample_rowcount_witness :
    (List.replicate 4 [(0 : ℚ)]).length = new_len demoData700.label.length ∧
    ((constResampleL (demoData700.label.map fun z => (z : ℚ))
      (new_len demoData700.label.length)).map npRound).length =
        new_len demoData700.label.length ∧
    new_len demoData700.label.length =
      demoData700.label.length * SAMPLING_RATE_TARGET / SAMPLING_RATE_ORIG ∧
    ∀ c ∈ [Channel.EDA],
      ∀ m ∈ channelParts constResample demoData700 Device.chest
          (new_len demoData700.label.length) c,
        m.length = new_len demoData700.label.length :=
  load_and_downsample_rowcount constResample constResampleL demoData700
    [Channel.EDA] Device.chest (List.replicate 4 [0]) _
    (fun _ n => by simp [constResample])
    (fun _ n => by simp [constResampleL])
    rfl

/-- C8: a channel with no source on the sole selected device contributes
nothing, silently (removing it from the request changes nothing); with at
least one resolved channel/device pairing the concatenation succeeds and the
call returns a result; with zero resolved pairings the call fails. -/
theorem load_and_downsample_availability (resample : Matrix → Nat → Matrix)
    (resampleL : List ℚ → Nat → List ℚ) (data : RawData) (device : Device) :
    (∀ c, (device = Device.chest ∧ chestKey c = none) ∨
        (device = Device.wrist ∧ wristKey c = none) →
      channelParts resample data device (new_len data.label.length) c = []) ∧
    (∀ (pre post : List Channel) (c : Channel),
      channelParts resample data device (new_len data.label.length) c = [] →
      load_and_downsample resample resampleL data (pre ++ c :: post) device =
        load_and_downsample resample resampleL data (pre ++ post) device) ∧
    (∀ signals : List Channel,
      (∃ c ∈ signals,
        channelParts resample data device (new_len data.label.length) c ≠ []) →
      ∃ M labs, load_and_downsample resample resampleL data signals device =
        some (M, labs)) ∧
    (∀ signals : List Channel,
      (∀ c ∈ signals,
        channelParts resample data device (new_len data.label.length) c = []) →
      load_and_downsample resample resampleL data signals device = none) := by
  refine ⟨?_, ?_, ?_, ?_⟩
  · rintro c (⟨rfl, hkey⟩ | ⟨rfl, hkey⟩) <;>
      cases c <;> first | rfl | exact Option.noConfusion hkey
  · intro pre post c hc
    have hsl : signalList resample data (pre ++ c :: post) device
        (new_len data.label.length) =
        signalList resample data (pre ++ post) device
          (new_len data.label.length) := by
      simp only [signalList, List.filterMap_append, List.filterMap_cons]
      rw [hc]
      simp
    simp only [load_and_downsample, hsl]
  · rintro signals ⟨c, hc, hne⟩
    have hmem : hconcat (channelParts resample data device
        (new_len data.label.length) c) ∈
        signalList resample data signals device (new_len data.label.length) := by
      apply List.mem_filterMap.mpr
      refine ⟨c, hc, ?_⟩
      simp only [List.isEmpty_eq_true]
      rw [if_neg hne]
    have hslne : signalList resample data signals device
        (new_len data.label.length) ≠ [] := List.ne_nil_of_mem hmem
    refine ⟨hconcat (signalList resample data signals device
        (new_len data.label.length)),
      (resampleL (data.label.map fun z => (z : ℚ))
        (new_len data.label.length)).map npRound, ?_⟩
    simp only [load_and_downsample]
    rw [if_neg (by simpa [List.isEmpty_iff] using hslne)]
  · intro signals hall
    have hnil : signalList resample data signals device
        (new_len data.label.length) = [] := signalList_eq_nil_iff.mpr hall
    simp [load_and_downsample, hnil]

/-- Witness: on the synthetic recording with `device = chest`, the
wrist-only channel `BVP` contributes nothing (and may be dropped from the
request without changing the result), requesting `[EDA]` succeeds, and
requesting only `[BVP]` fails. -/
theorem load_and_downsample_availability_witness :
    channelParts constResample demoData700 Device.chest
      (new_len demoData700.label.length) Channel.BVP = [] ∧
    load_and_downsample constResample constResampleL demoData700
        [Channel.BVP, Channel.EDA] Device.chest =
      load_and_downsample constResample constResampleL demoData700
        [Channel.EDA] Device.chest ∧
    (∃ M labs, load_and_downsample constResample constResampleL demoData700
        [Channel.EDA] Device.chest = some (M, labs)) ∧
    load_and_downsample constResample constResampleL demoData700
      [Channel.BVP] Device.chest = none := by
  obtain ⟨ha, hb, hc, hd⟩ := load_and_downsample_availability constResample
    constResampleL demoData700 Device.chest
  refine ⟨ha Channel.BVP (Or.inl ⟨rfl, rfl⟩), ?_, ?_, ?_⟩
  · simpa using hb [] [Channel.EDA] Channel.BVP (ha _ (Or.inl ⟨rfl, rfl⟩))
  · exact hc _ ⟨Channel.EDA, by simp, by decide⟩
  · refine hd _ ?_
    intro c hcm
    rw [List.mem_singleton] at hcm
    subst hcm
    exact ha _ (Or.inl ⟨rfl, rfl⟩)

/-! ## Lemmas about zipping -/

theorem map_snd_zip_take : ∀ (l1 : List α) (l2 : List β),
    (l1.zip l2).map Prod.snd = l2.take l1.length
  | [], l2 => by simp
  | a :: t, [] => by simp
  | a :: t, b :: u => by simp [map_snd_zip_take t u]

theorem map_fst_zip_take : ∀ (l1 : List α) (l2 : List β),
    (l1.zip l2).map Prod.fst = l1.take l2.length
  | [], l2 => by simp
  | a :: t, [] => by simp
  | a :: t, b :: u => by simp [map_fst_zip_take t u]

/-! ## Claim theorems: questionnaire extractor -/

/-- C7: a score row is contributed only by rows whose first field starts with
the fixed marker `# PANAS`; a marker row with fewer than 26 parsed numeric
fields contributes nothing; an accepted row pairs the 26-item vocabulary
positionally with its first 26 parsed values (extra trailing values ignored);
and the extractor is a total scan that only ever skips rows, returning at most
one dict per input row. -/
theorem extract_panas_scores_rows (rows : List (List String)) :
    (∀ d ∈ extract_panas_scores rows, ∃ row ∈ rows,
        markerRow row = true ∧
        PANAS_ITEMS.length ≤ (parsedScores (row.drop 1)).length ∧
        d = PANAS_ITEMS.zip (parsedScores (row.drop 1)) ∧
        d.map Prod.snd = (parsedScores (row.drop 1)).take PANAS_ITEMS.length) ∧
    ((∀ row ∈ rows, markerRow row = false ∨
        (parsedScores (row.drop 1)).length < PANAS_ITEMS.length) →
      extract_panas_scores rows = []) ∧
    (extract_panas_scores rows).length ≤ rows.length := by
  refine ⟨?_, ?_, ?_⟩
  · intro d hd
    simp only [extract_panas_scores, List.mem_filterMap, List.mem_filter] at hd
    obtain ⟨row, ⟨hrow, hmark⟩, hg⟩ := hd
    by_cases hlen : (parsedScores (row.drop 1)).length < PANAS_ITEMS.length
    · rw [if_pos hlen] at hg; cases hg
    · rw [if_neg hlen] at hg
      have hzip := Option.some.inj hg
      subst hzip
      exact ⟨row, hrow, hmark, Nat.le_of_not_lt hlen, rfl, map_snd_zip_take _ _⟩
  · intro hall
    apply List.filterMap_eq_nil_iff.mpr
    intro row hrow
    obtain ⟨hmem, hmark⟩ := List.mem_filter.mp hrow
    rcases hall row hmem with hbad | hlen
    · rw [hmark] at hbad; cases hbad
    · rw [List.drop_one] at hlen
      simp [hlen]
  · exact Nat.le_trans (List.length_filterMap_le _ _) (List.length_filter_le _ _)

/-- Witness: a file whose single row lacks the marker contributes no score
rows, and the extractor returns without failing. -/
theorem extract_panas_scores_rows_witness :
    extract_panas_scores [["foo"]] = [] ∧
    (extract_panas_scores [["foo"]]).length ≤ ([["foo"]] : List (List String)).length :=
  ⟨(extract_panas_scores_rows [["foo"]]).2.1 (by decide),
   (extract_panas_scores_rows [["foo"]]).2.2⟩

/-- C10: every parsed dict maps exactly the 26 PANAS adjectives, every value
is the numeral of an all-digit field (hence a non-negative integer), and a
non-digit field (negative, decimal, blank, text) is silently dropped before
the positional pairing: inserting one into the fields changes nothing and
does not reject the row. -/
theorem extract_panas_scores_values (rows : List (List String)) :
    (∀ d ∈ extract_panas_scores rows,
      d.map Prod.fst = PANAS_ITEMS ∧
      ∀ p ∈ d, ∃ s, isDigitField s = true ∧ p.2 = digitVal s) ∧
    (∀ (pre post : List String) (junk : String), isDigitField junk = false →
      parsedScores (pre ++ junk :: post) = parsedScores (pre ++ post)) := by
  refine ⟨?_, ?_⟩
  · intro d hd
    simp only [extract_panas_scores, List.mem_filterMap, List.mem_filter] at hd
    obtain ⟨row, ⟨hrow, hmark⟩, hg⟩ := hd
    by_cases hlen : (parsedScores (row.drop 1)).length < PANAS_ITEMS.length
    · rw [if_pos hlen] at hg; cases hg
    · rw [if_neg hlen] at hg
      have hzip := Option.some.inj hg
      subst hzip
      constructor
      · rw [map_fst_zip_take]
        exact List.take_of_length_le (Nat.le_of_not_lt hlen)
      · intro p hp
        obtain ⟨a, b⟩ := p
        have hb : b ∈ parsedScores (row.drop 1) := (List.of_mem_zip hp).2
        simp only [parsedScores, List.mem_filterMap] at hb
        obtain ⟨s, _, hs⟩ := hb
        by_cases hdig : isDigitField s
        · rw [if_pos hdig] at hs
          exact ⟨s, hdig, (Option.some.inj hs).symm⟩
        · simp [hdig] at hs
  · intro pre post junk hjunk
    simp [parsedScores, List.filterMap_append, List.filterMap_cons, hjunk]

/-- Witness: the non-digit field `"x"` between two digit fields is dropped
without occupying a position and without rejecting the row. -/
theorem extract_panas_scores_values_witness :
    isDigitField "x" = false ∧
    parsedScores (["1"] ++ "x" :: ["2"]) = parsedScores (["1"] ++ ["2"]) ∧
    parsedScores ["1", "x", "2"] = [1, 2] :=
  ⟨by decide,
   (extract_panas_scores_values []).2 ["1"] ["2"] "x" (by decide),
   by decide⟩

/-! ## Lemmas about dict lookup and rescaling -/

theorem getD_eq_get : ∀ (l : List α) (k : Nat) (h : k < l.length) (d : α),
    l.getD k d = l.get ⟨k, h⟩
  | a :: t, 0, _, d => rfl
  | a :: t, k + 1, h, d => getD_eq_get t k (by simpa using h) d

theorem dictLookup_zip : ∀ (keys : List String) (scores : List Nat) (k : String),
    keys.indexOf k < keys.length → keys.indexOf k < scores.length →
    dictLookup (keys.zip scores) k = scores.getD (keys.indexOf k) 0
  | [], _, k => by intro h _; simp at h
  | _ :: _, [], k => by intro _ h; simp at h
  | a :: ks, s :: ss, k => by
    intro h1 h2
    by_cases hak : (a == k) = true
    · have hidx : (a :: ks).indexOf k = 0 := by
        simp [List.indexOf_cons, hak]
      rw [hidx]
      show dictLookup ((a, s) :: ks.zip ss) k = s
      rw [dictLookup,
        @List.find?_cons_of_pos _ (fun q => q.1 == k) (a, s) (ks.zip ss) hak]
      rfl
    · have hidx : (a :: ks).indexOf k = ks.indexOf k + 1 := by
        simp [List.indexOf_cons, hak]
      rw [hidx] at h1 h2 ⊢
      have ih := dictLookup_zip ks ss k (by simpa using h1) (by simpa using h2)
      show dictLookup ((a, s) :: ks.zip ss) k = (s :: ss).getD (ks.indexOf k + 1) 0
      rw [dictLookup,
        @List.find?_cons_of_neg _ (fun q => q.1 == k) (a, s) (ks.zip ss)
          (by simpa using hak)]
      exact ih

theorem dictLookup_range {d : List (String × Nat)} {a : String}
    (hkey : a ∈ d.map Prod.fst) (hrange : ∀ p ∈ d, 1 ≤ p.2 ∧ p.2 ≤ 5) :
    1 ≤ dictLookup d a ∧ dictLookup d a ≤ 5 := by
  obtain ⟨p, hp, hpa⟩ := List.mem_map.mp hkey
  have hsome : (d.find? (fun q => q.1 == a)).isSome := by
    rw [List.find?_isSome]
    exact ⟨p, hp, by simp [hpa]⟩
  obtain ⟨q, hq⟩ := Option.isSome_iff_exists.mp hsome
  have hqmem : q ∈ d := List.mem_of_find?_eq_some hq
  rw [dictLookup, hq]
  exact hrange q hqmem

theorem rescale_mem_unit {n : Nat} (h1 : 1 ≤ n) (h5 : n ≤ 5) :
    0 ≤ rescaleScore (n : ℚ) ∧ rescaleScore (n : ℚ) ≤ 1 := by
  have hc1 : (1 : ℚ) ≤ (n : ℚ) := by exact_mod_cast h1
  have hc5 : (n : ℚ) ≤ 5 := by exact_mod_cast h5
  simp only [rescaleScore]
  constructor
  · apply div_nonneg (by linarith) (by norm_num)
  · rw [div_le_one (by norm_num)]
    linarith

/-! ## Claim theorems: dataset assembler -/

/-- C6: the regression-target lookup of `load_wesad_dataset`: for an emitted
window label `ℓ ≥ 1`, if `ℓ − 1` is at or beyond the number of parsed score
sets the assigned vector is all zeros of length `len(TARGET_PANAS) = 7`, else
it is score set `ℓ − 1` restricted to the `TARGET_PANAS` adjectives — which,
for a dict parsed from a questionnaire row, selects the parsed values at the
positions of those adjectives in the 26-item vocabulary. -/
theorem load_wesad_regression_targets (panas : List (List (String × Nat)))
    (win_y : List Nat) (k : Nat) (hk : k < win_y.length)
    (_hpos : 1 ≤ win_y.getD k 0) :
    TARGET_PANAS.length = 7 ∧
    (y_reg_for panas win_y).getD k [] =
      (if panas.length ≤ win_y.getD k 0 - 1
       then List.replicate TARGET_PANAS.length (0 : ℚ)
       else scoreRestrict (panas.getD (win_y.getD k 0 - 1) [])) ∧
    (∀ scores : List Nat, PANAS_ITEMS.length ≤ scores.length →
      scoreRestrict (PANAS_ITEMS.zip scores) =
        TARGET_PANAS.map fun a => ((scores.getD (PANAS_ITEMS.indexOf a) 0 : Nat) : ℚ)) := by
  refine ⟨rfl, ?_, ?_⟩
  · rw [show y_reg_for panas win_y = win_y.map (scoreVec panas) from rfl]
    rw [getD_map_getElem _ _ k hk, getD_eq_get _ k hk]
    rfl
  · intro scores hlen
    rw [scoreRestrict]
    apply List.map_congr_left
    intro a ha
    have hidx : PANAS_ITEMS.indexOf a < PANAS_ITEMS.length := by
      fin_cases ha <;> decide
    have h26 : PANAS_ITEMS.length = 26 := rfl
    have hlt : PANAS_ITEMS.indexOf a < scores.length := by omega
    rw [dictLookup_zip PANAS_ITEMS scores a hidx hlt]

/-- Witness: with no parsed score sets, the window labeled `1` falls back to
the all-zero vector of length 7. -/
theorem load_wesad_regression_targets_witness :
    TARGET_PANAS.length = 7 ∧
    (y_reg_for [] [1]).getD 0 [] = List.replicate TARGET_PANAS.length (0 : ℚ) := by
  obtain ⟨h7, hif, _⟩ := load_wesad_regression_targets [] [1] 0 (by decide) (by decide)
  refine ⟨h7, ?_⟩
  simpa using hif

/-- C3 counterexample: a fallback window (no questionnaire entry for its
condition) has rescaled target coordinates `(0 − 1)/4 = −1/4`, outside
`[0, 1]`, so not every rescaled coordinate lies in `[0, 1]`. -/
theorem rescaled_fallback_counterexample :
    ((rescaleAll (y_reg_for [] [1])).getD 0 []).getD 0 0 = -(1 / 4 : ℚ) ∧
    ¬(0 ≤ ((rescaleAll (y_reg_for [] [1])).getD 0 []).getD 0 0) := by
  have hv : ((rescaleAll (y_reg_for [] [1])).getD 0 []).getD 0 0 = -(1 / 4 : ℚ) := by
    show rescaleScore 0 = -(1 / 4 : ℚ)
    rw [rescaleScore]
    norm_num
  refine ⟨hv, ?_⟩
  rw [hv]
  norm_num

/-- C3 (amended): after the `(y − 1)/4` rescaling, a window whose condition
has a questionnaire entry (with the observed 1–5 scores) gets every target
coordinate in `[0, 1]`; a fallback window gets every coordinate equal to
`−1/4`, outside `[0, 1]`. -/
theorem rescaled_targets_range (panas : List (List (String × Nat)))
    (win_y : List Nat) (k : Nat) (hk : k < win_y.length)
    (hkeys : ∀ d ∈ panas, d.map Prod.fst = PANAS_ITEMS)
    (hrange : ∀ d ∈ panas, ∀ p ∈ d, 1 ≤ p.2 ∧ p.2 ≤ 5) :
    (win_y.getD k 0 - 1 < panas.length →
      ∀ x ∈ (rescaleAll (y_reg_for panas win_y)).getD k [], 0 ≤ x ∧ x ≤ 1) ∧
    (panas.length ≤ win_y.getD k 0 - 1 →
      ∀ x ∈ (rescaleAll (y_reg_for panas win_y)).getD k [],
        x = -(1 / 4 : ℚ) ∧ ¬(0 ≤ x ∧ x ≤ 1)) := by
  have hk' : k < (y_reg_for panas win_y).length := by
    simpa [y_reg_for] using hk
  have hrow : (rescaleAll (y_reg_for panas win_y)).getD k [] =
      ((y_reg_for panas win_y).get ⟨k, hk'⟩).map rescaleScore :=
    getD_map_getElem _ _ k hk' []
  have hget : (y_reg_for panas win_y).get ⟨k, hk'⟩ =
      scoreVec panas (win_y.get ⟨k, hk⟩) := by
    simp [y_reg_for]
  have hgetD : win_y.getD k 0 = win_y.get ⟨k, hk⟩ := getD_eq_get _ k hk 0
  constructor
  · intro hin x hx
    rw [hrow, hget] at hx
    rw [hgetD] at hin
    rw [scoreVec, if_neg (by omega)] at hx
    set d := panas.getD (win_y.get ⟨k, hk⟩ - 1) [] with hd
    have hdmem : d ∈ panas := by
      rw [hd, getD_eq_get _ _ hin]
      exact List.get_mem _ _ _
    simp only [scoreRestrict, List.map_map, List.mem_map] at hx
    obtain ⟨a, ha, rfl⟩ := hx
    have hkey : a ∈ d.map Prod.fst := by
      rw [hkeys d hdmem]
      have hsub : ∀ b ∈ TARGET_PANAS, b ∈ PANAS_ITEMS := by decide
      exact hsub a ha
    obtain ⟨hl1, hl5⟩ := dictLookup_range hkey (hrange d hdmem)
    exact rescale_mem_unit hl1 hl5
  · intro hout x hx
    rw [hrow, hget] at hx
    rw [hgetD] at hout
    rw [scoreVec, if_pos hout] at hx
    rw [List.map_replicate] at hx
    have hxval : x = rescaleScore 0 := List.eq_of_mem_replicate hx
    have hval : rescaleScore 0 = -(1 / 4 : ℚ) := by
      rw [rescaleScore]; norm_num
    rw [hxval, hval]
    constructor
    · rfl
    · intro ⟨h0, _⟩
      norm_num at h0

/-- Witness: a single score set with every adjective at 3 yields, for the
window labeled `1`, a first rescaled coordinate inside `[0, 1]`. -/
theorem rescaled_targets_range_witness :
    0 ≤ ((rescaleAll (y_reg_for [PANAS_ITEMS.map fun a => (a, 3)] [1])).getD 0
        []).getD 0 0 ∧
      ((rescaleAll (y_reg_for [PANAS_ITEMS.map fun a => (a, 3)] [1])).getD 0
        []).getD 0 0 ≤ 1 := by
  have h := (rescaled_targets_range [PANAS_ITEMS.map fun a => (a, 3)] [1] 0
    (by decide) (by decide) (by decide)).1 (by decide)
  have hlen : 0 < ((rescaleAll (y_reg_for [PANAS_ITEMS.map fun a => (a, 3)]
      [1])).getD 0 []).length := by
    simp [rescaleAll, y_reg_for, scoreVec, scoreRestrict, TARGET_PANAS]
  exact h _ (by rw [getD_eq_get _ 0 hlen]; exact List.get_mem _ _ _)

/-! ## Claim theorems: audio pipeline -/

/-- C9: the audio batch returns exactly one result per input file in input
order; assuming the external models' contracts (OpenL3 embeddings of the
configured `EMBED_SIZE = 512`, musicnn returning at least one tag), each
entry is either a success record with a 512-length embedding and a non-empty
tag list or an error record — both carrying the file's basename — and a
per-item failure never aborts the batch. -/
theorem audio_pipeline_results
    (analyze : String → Except String (List ℚ × List (String × ℚ)))
    (files : List String)
    (hok : ∀ f e t, analyze f = .ok (e, t) → e.length = EMBED_SIZE ∧ t ≠ []) :
    (runAudioPipeline analyze files).length = files.length ∧
    ∀ k (hk : k < files.length),
      (∃ e t, (runAudioPipeline analyze files).getD k (.err "" "") =
          .ok (basename (files.get ⟨k, hk⟩)) e t ∧
        e.length = EMBED_SIZE ∧ t ≠ []) ∨
      (∃ m, (runAudioPipeline analyze files).getD k (.err "" "") =
          .err (basename (files.get ⟨k, hk⟩)) m) := by
  have hplen : (file_gpu_pairs files).length = files.length := by
    simp [file_gpu_pairs]
  constructor
  · simp [runAudioPipeline, hplen]
  · intro k hk
    have hk' : k < (file_gpu_pairs files).length := by omega
    have hres : (runAudioPipeline analyze files).getD k (.err "" "") =
        process_audio analyze ((file_gpu_pairs files).get ⟨k, hk'⟩) :=
      getD_map_getElem _ _ k hk' _
    have hpair : (file_gpu_pairs files).get ⟨k, hk'⟩ =
        (files.get ⟨k, hk⟩, assign_gpu k) := by
      simp [file_gpu_pairs]
    rw [hres, hpair]
    rcases heq : analyze (files.get ⟨k, hk⟩) with m | ⟨e, t⟩
    · have heq' : analyze files[k] = Except.error m := heq
      exact Or.inr ⟨m, by simp [process_audio, heq']⟩
    · obtain ⟨he, ht⟩ := hok _ e t heq
      have heq' : analyze files[k] = Except.ok (e, t) := heq
      exact Or.inl ⟨e, t, by simp [process_audio, heq'], he, ht⟩

/-- Witness: a one-file batch whose analysis fails yields exactly one result,
an error record carrying the file's name. -/
theorem audio_pipeline_results_witness :
    (runAudioPipeline (fun _ => .error "boom") ["a.mp3"]).length =
      (["a.mp3"] : List String).length ∧
    ∀ k (hk : k < (["a.mp3"] : List String).length),
      (∃ e t, (runAudioPipeline (fun _ => .error "boom") ["a.mp3"]).getD k
            (.err "" "") =
          .ok (basename ((["a.mp3"] : List String).get ⟨k, hk⟩)) e t ∧
        e.length = EMBED_SIZE ∧ t ≠ []) ∨
      (∃ m, (runAudioPipeline (fun _ => .error "boom") ["a.mp3"]).getD k
            (.err "" "") =
          .err (basename ((["a.mp3"] : List String).get ⟨k, hk⟩)) m) :=
  audio_pipeline_results (fun _ => .error "boom") ["a.mp3"]
    (fun _ _ _ h => by cases h)

end WESAD
